import Mathlib

/-!
Shallow embedding of the Crazy Eights game engine from `src/src/App.tsx`
(types from `src/src/types.ts`).

The React component keeps its state in several `useState` fields; here they
are collected into one `GameState` record, and every event handler of the
source becomes a pure function `GameState → GameState`.  Inside one handler
the source reads the render-time values of the state fields and issues
`setX` calls; functional updates (`setX (prev => ...)`) are applied to the
state produced so far, absolute updates overwrite a field.  This is exactly
the translation performed below; in the one place where the source runs a
handler from a stale closure (the AI draw-then-play path, which calls the
render-time `playCard` from a nested `setTimeout`), the stale closure value
is passed explicitly as the `closureAiHand` argument of `playCardAI`.

The user-visible status message is modelled by the inductive type `Msg`,
one constructor per distinct message string of the source (parametrised
where the source interpolates a suit or rank).
-/

inductive Suit where
  | hearts | diamonds | clubs | spades
deriving DecidableEq, Repr

inductive Rank where
  | A | n2 | n3 | n4 | n5 | n6 | n7 | n8 | n9 | n10 | J | Q | K
deriving DecidableEq, Repr

/-- A card of `types.ts`.  The source's `id` is the string
`rank + "-" + suit`, which is uniquely determined by (and determines) the
rank/suit pair, so it is modelled by that pair. -/
structure CardData where
  id : Rank × Suit
  suit : Suit
  rank : Rank
deriving DecidableEq, Repr

inductive GamePhase where
  | dealing | playing | gameOver
deriving DecidableEq, Repr

inductive Turn where
  | player | ai
deriving DecidableEq, Repr

/-- One constructor per distinct status message set by the source. -/
inductive Msg where
  | welcome
  | yourTurn
  | deckEmptySkip
  | playerDrew
  | playerWins
  | aiThinking
  | aiPlayedEight (s : Suit)
  | aiPlayed (s : Suit) (r : Rank)
  | aiWins
  | playerChoseSuit (s : Suit)
  | aiDrew
  | aiSkip
deriving DecidableEq, Repr

def SUITS : List Suit := [.hearts, .diamonds, .clubs, .spades]

def RANKS : List Rank := [.A, .n2, .n3, .n4, .n5, .n6, .n7, .n8, .n9, .n10, .J, .Q, .K]

/-- `createDeck` of App.tsx: suit-major, rank-minor build order. -/
def createDeck : List CardData :=
  (SUITS.map (fun s => RANKS.map (fun r => ⟨(r, s), s, r⟩))).flatten

/-- The destructuring swap `[a[i], a[j]] = [a[j], a[i]]` on a JS array,
as a function on lists (no-op when an index is out of bounds). -/
def swapIdx (l : List CardData) (i j : Nat) : List CardData :=
  match l.get? i, l.get? j with
  | some a, some b => (l.set i b).set j a
  | _, _ => l

/-- The Fisher–Yates loop of `shuffle`: the counter runs from
`length - 1` down to `1`; at counter `i` the element at `i` is swapped
with the one at index `rand i % (i + 1)` (the source's
`Math.floor(Math.random() * (i + 1))`, with the random draws supplied by
the oracle `rand`). -/
def shuffleGo (rand : Nat → Nat) : Nat → List CardData → List CardData
  | 0, l => l
  | i + 1, l => shuffleGo rand i (swapIdx l (i + 1) (rand (i + 1) % (i + 2)))

/-- `shuffle` of App.tsx, with the `Math.random` draws supplied by `rand`. -/
def shuffle (rand : Nat → Nat) (deck : List CardData) : List CardData :=
  shuffleGo rand (deck.length - 1) deck

/-- The React state of the `App` component, gathered into one record. -/
structure GameState where
  deck : List CardData
  playerHand : List CardData
  aiHand : List CardData
  discardPile : List CardData
  currentSuit : Option Suit
  turn : Turn
  phase : GamePhase
  showSuitPicker : Bool
  pendingEightCard : Option CardData
  message : Msg
deriving DecidableEq, Repr

/-- `topDiscard` of App.tsx: `discardPile[discardPile.length - 1]`
(`none` when the pile is empty, where the source yields `undefined`). -/
def topDiscardOf (s : GameState) : Option CardData :=
  s.discardPile.getLast?

/-- `isValidMove` of App.tsx as a pure predicate on its three inputs.
When the discard pile is empty the source's `topDiscard` is `undefined`
and the rank comparison would throw; that unreachable case is modelled as
`false` (the wild and suit clauses, checked first, are unaffected). -/
def isValidMove (card : CardData) (topDiscard : Option CardData)
    (currentSuit : Option Suit) : Bool :=
  if card.rank = Rank.n8 then true
  else if (match currentSuit with | some cs => decide (card.suit = cs) | none => false) then true
  else match topDiscard with
       | some t => card.rank = t.rank
       | none => false

/-- `isValidMove` applied to the current table state, as the source's
closure does. -/
def isValidMoveS (s : GameState) (card : CardData) : Bool :=
  isValidMove card (topDiscardOf s) s.currentSuit

/-- `initGame` of App.tsx, applied to the already-shuffled deck:
`splice(0, 8)` twice deals the first 8 cards to the player and the next 8
to the AI, then `pop()` takes the initial discard from the far end of the
remainder.  `showSuitPicker`/`pendingEightCard` are the mount-time
`useState` initial values, which `initGame` does not touch. -/
def initGame (fullDeck : List CardData) : GameState :=
  match (fullDeck.drop 16).getLast? with
  | some firstDiscard =>
      { deck := (fullDeck.drop 16).dropLast
        playerHand := fullDeck.take 8
        aiHand := (fullDeck.drop 8).take 8
        discardPile := [firstDiscard]
        currentSuit := some firstDiscard.suit
        turn := Turn.player
        phase := GamePhase.playing
        showSuitPicker := false
        pendingEightCard := none
        message := Msg.yourTurn }
  | none =>
      -- unreachable for a 52-card deck (the source would pop `undefined`)
      { deck := []
        playerHand := fullDeck.take 8
        aiHand := (fullDeck.drop 8).take 8
        discardPile := []
        currentSuit := none
        turn := Turn.player
        phase := GamePhase.playing
        showSuitPicker := false
        pendingEightCard := none
        message := Msg.yourTurn }

/-- `handleDraw` of App.tsx (the human's draw).  The timed
`setTimeout(() => setTurn('ai'), ...)` calls are modelled as part of the
transition, per the spec's reading of the think-time delays as pure
presentation pacing. -/
def handleDraw (s : GameState) : GameState :=
  if s.turn ≠ Turn.player ∨ s.phase ≠ GamePhase.playing ∨ s.showSuitPicker = true then s
  else if s.deck = [] then
    { s with message := Msg.deckEmptySkip, turn := Turn.ai }
  else
    match s.deck.getLast? with
    | none => s   -- unreachable: the deck was tested non-empty
    | some drawn =>
        if isValidMoveS s drawn then
          { s with deck := s.deck.dropLast
                   playerHand := s.playerHand ++ [drawn]
                   message := Msg.playerDrew }
        else
          { s with deck := s.deck.dropLast
                   playerHand := s.playerHand ++ [drawn]
                   message := Msg.playerDrew
                   turn := Turn.ai }

/-- The `isPlayer` branch of `playCard` in App.tsx.  The win check reads
the render-time `playerHand.length`, i.e. the hand before removal. -/
def playCardPlayer (s : GameState) (card : CardData) : GameState :=
  if card.rank = Rank.n8 then
    { s with pendingEightCard := some card, showSuitPicker := true }
  else
    let s1 := { s with playerHand := s.playerHand.filter (fun c => decide (c.id ≠ card.id))
                       discardPile := s.discardPile ++ [card]
                       currentSuit := some card.suit }
    if s.playerHand.length = 1 then
      { s1 with phase := GamePhase.gameOver, message := Msg.playerWins }
    else
      { s1 with turn := Turn.ai, message := Msg.aiThinking }

/-- The cards of `hand` having suit `t` (the per-suit tally the source
accumulates with `reduce` into `suitCounts`). -/
def suitCount (hand : List CardData) (t : Suit) : Nat :=
  (hand.filter (fun c => decide (c.suit = t))).length

/-- `Object.keys(suitCounts)`: the suits of `l` in first-appearance
(insertion) order. -/
def insertKeys (l : List Suit) : List Suit :=
  l.foldl (fun acc t => if t ∈ acc then acc else acc ++ [t]) []

/-- Stable insertion step of a descending sort by `cnt` (JS
`Array.prototype.sort` with comparator `(a, b) => cnt b - cnt a` is
stable). -/
def insertDesc (cnt : Suit → Nat) (x : Suit) : List Suit → List Suit
  | [] => [x]
  | y :: ys => if cnt y < cnt x then x :: y :: ys else y :: insertDesc cnt x ys

/-- Stable sort of the key list, descending by `cnt`. -/
def sortDesc (cnt : Suit → Nat) : List Suit → List Suit
  | [] => []
  | x :: xs => insertDesc cnt x (sortDesc cnt xs)

/-- The AI's wild-suit nomination of App.tsx lines 200–205: the first key
of the count table after the descending sort, `hearts` when the table is
empty (`... [0] || 'hearts'`), computed over the hand remaining after the
played eight is removed. -/
def bestSuitOf (remaining : List CardData) : Suit :=
  match sortDesc (suitCount remaining) (insertKeys (remaining.map (fun c => c.suit))) with
  | [] => Suit.hearts
  | t :: _ => t

/-- The AI branch of `playCard` in App.tsx.  `closureAiHand` is the
render-time `aiHand` captured by the closure that runs this call: the
current hand for the direct play path, the pre-draw hand when the call
comes from the nested `setTimeout` of the draw path.  The suit tally and
the win check read this closure value; the hand/discard updates are
functional and act on the actual state `s`. -/
def playCardAI (closureAiHand : List CardData) (s : GameState) (card : CardData) : GameState :=
  let s1 := { s with aiHand := s.aiHand.filter (fun c => decide (c.id ≠ card.id))
                     discardPile := s.discardPile ++ [card] }
  let s2 :=
    if card.rank = Rank.n8 then
      { s1 with currentSuit :=
                  some (bestSuitOf (closureAiHand.filter (fun c => decide (c.id ≠ card.id))))
                message :=
                  Msg.aiPlayedEight
                    (bestSuitOf (closureAiHand.filter (fun c => decide (c.id ≠ card.id)))) }
    else
      { s1 with currentSuit := some card.suit, message := Msg.aiPlayed card.suit card.rank }
  if closureAiHand.length = 1 then
    { s2 with phase := GamePhase.gameOver, message := Msg.aiWins }
  else
    { s2 with turn := Turn.player }

/-- `handleSuitPick` of App.tsx (the human's wild resolution). -/
def handleSuitPick (s : GameState) (suit : Suit) : GameState :=
  match s.pendingEightCard with
  | none => s
  | some pc =>
      let s1 := { s with playerHand := s.playerHand.filter (fun c => decide (c.id ≠ pc.id))
                         discardPile := s.discardPile ++ [pc]
                         currentSuit := some suit
                         pendingEightCard := none
                         showSuitPicker := false }
      if s.playerHand.length = 1 then
        { s1 with phase := GamePhase.gameOver, message := Msg.playerWins }
      else
        { s1 with turn := Turn.ai, message := Msg.playerChoseSuit suit }

/-- The AI-turn effect of App.tsx lines 241–276, with the random index
draw supplied by `choice`.  When there is a playable card the source
prefers a uniformly chosen non-eight (`nonEight[floor(random * len)]`,
modelled as index `choice % len`) and falls back to `playableCards[0]`;
otherwise it draws, immediately playing a legal drawn card through the
stale render-time closure (hence `playCardAI s.aiHand ...` below receives
the pre-draw hand), and an illegal drawn card or an empty deck ends the
AI's turn. -/
def aiStep (s : GameState) (choice : Nat) : GameState :=
  if s.turn = Turn.ai ∧ s.phase = GamePhase.playing then
    match s.aiHand.filter (fun c => isValidMoveS s c) with
    | c0 :: rest =>
        match (c0 :: rest).filter (fun c => decide (c.rank ≠ Rank.n8)) with
        | [] => playCardAI s.aiHand s c0
        | ne0 :: netl =>
            playCardAI s.aiHand s
              ((ne0 :: netl).getD (choice % (ne0 :: netl).length) c0)
    | [] =>
        match s.deck.getLast? with
        | some drawn =>
            if isValidMoveS s drawn then
              playCardAI s.aiHand
                { s with deck := s.deck.dropLast
                         aiHand := s.aiHand ++ [drawn]
                         message := Msg.aiDrew } drawn
            else
              { s with deck := s.deck.dropLast
                       aiHand := s.aiHand ++ [drawn]
                       message := Msg.aiDrew
                       turn := Turn.player }
        | none => { s with message := Msg.aiSkip, turn := Turn.player }
  else s

/-- All 52 card slots of the game, in the four containers of the claim. -/
def allCards (s : GameState) : List CardData :=
  s.deck ++ s.playerHand ++ s.aiHand ++ s.discardPile

/-- One engine step, as the presentation layer can trigger it.  `draw`,
`pick` and `ai` carry their guards inside the handler; a `play` click is
only wired up by the UI (App.tsx line 384) when the card is in the hand,
it is the player's turn in the playing phase, no suit picker is open and
the card passes the validator. -/
inductive Step : GameState → GameState → Prop where
  | draw (s : GameState) : Step s (handleDraw s)
  | play (s : GameState) (card : CardData)
      (hmem : card ∈ s.playerHand)
      (hturn : s.turn = Turn.player) (hphase : s.phase = GamePhase.playing)
      (hvalid : isValidMoveS s card = true) (hpick : s.showSuitPicker = false) :
      Step s (playCardPlayer s card)
  | pick (s : GameState) (suit : Suit) : Step s (handleSuitPick s suit)
  | ai (s : GameState) (choice : Nat) : Step s (aiStep s choice)

/-- A freshly dealt game: `initGame` run on some shuffle of the full deck. -/
def NewGame (s : GameState) : Prop :=
  ∃ rand : Nat → Nat, s = initGame (shuffle rand createDeck)

/-- States reachable from a new game by engine steps. -/
def ReachableState (s : GameState) : Prop :=
  ∃ s0 : GameState, NewGame s0 ∧ Relation.ReflTransGen Step s0 s

theorem perm_of_multiset {l₁ l₂ : List CardData} (h : (l₁ : Multiset CardData) = l₂) :
    l₁.Perm l₂ :=
  Multiset.coe_eq_coe.mp h

theorem swapIdx_perm (l : List CardData) (i j : Nat) : (swapIdx l i j).Perm l := by
  unfold swapIdx
  split
  next a b hi hj =>
    rw [List.get?_eq_getElem?] at hi hj
    obtain ⟨hiL, hia⟩ := List.getElem?_eq_some_iff.mp hi
    obtain ⟨hjL, hjb⟩ := List.getElem?_eq_some_iff.mp hj
    have hjL2 : j < (l.set i b).length := by simpa using hjL
    rw [List.perm_iff_count]
    intro x
    rw [List.count_set a x (l.set i b) j hjL2, List.count_set b x l i hiL]
    have hm : (l.set i b).get ⟨j, hjL2⟩ = b := by
      by_cases hij : i = j
      · subst hij
        simp [List.get_eq_getElem]
      · simp only [List.get_eq_getElem]
        rw [List.getElem_set_ne hij]
        exact hjb
    have hgj : (l.set i b)[j] = b := hm
    have hgi : l[i] = a := hia
    rw [hgj, hgi]
    have hax : (if (a == x) then 1 else 0) ≤ l.count x := by
      by_cases h : a = x
      · subst h
        have hmem : a ∈ l := hia ▸ l.getElem_mem hiL
        simpa using List.count_pos_iff.mpr hmem
      · simp [h]
    simp only [beq_iff_eq] at hax ⊢
    split_ifs at hax ⊢ <;> omega
  next => exact List.Perm.refl _

theorem shuffleGo_perm (rand : Nat → Nat) :
    ∀ (n : Nat) (l : List CardData), (shuffleGo rand n l).Perm l
  | 0, _ => List.Perm.refl _
  | n + 1, l =>
    (shuffleGo_perm rand n _).trans (swapIdx_perm l (n + 1) (rand (n + 1) % (n + 2)))

theorem shuffle_perm (rand : Nat → Nat) (deck : List CardData) :
    (shuffle rand deck).Perm deck :=
  shuffleGo_perm rand (deck.length - 1) deck

theorem perm_cons_filter_of_mem (l : List CardData) (c : CardData)
    (hc : c ∈ l) (hn : (l.map CardData.id).Nodup) :
    l.Perm (c :: l.filter (fun x => decide (x.id ≠ c.id))) := by
  induction l with
  | nil => cases hc
  | cons a t ih =>
    rw [List.map_cons, List.nodup_cons] at hn
    obtain ⟨hna, hnt⟩ := hn
    by_cases hac : a.id = c.id
    · have hca : c = a := by
        rcases List.mem_cons.mp hc with h | h
        · exact h
        · exact absurd (hac ▸ List.mem_map_of_mem CardData.id h) hna
      subst hca
      have hfilt : t.filter (fun x => decide (x.id ≠ c.id)) = t := by
        apply List.filter_eq_self.mpr
        intro x hx
        simp only [decide_eq_true_eq]
        intro hxc
        exact hna (hxc ▸ List.mem_map_of_mem CardData.id hx)
      rw [List.filter_cons, if_neg (by simp : ¬(decide (c.id ≠ c.id) = true)), hfilt]
    · have hct : c ∈ t := by
        rcases List.mem_cons.mp hc with h | h
        · exact absurd (congrArg CardData.id h.symm) hac
        · exact h
      have hperm := ih hct hnt
      have h1 : (a :: t).Perm (a :: (c :: t.filter (fun x => decide (x.id ≠ c.id)))) :=
        hperm.cons a
      have h2 : (a :: c :: t.filter (fun x => decide (x.id ≠ c.id))).Perm
          (c :: a :: t.filter (fun x => decide (x.id ≠ c.id))) := List.Perm.swap _ _ _
      have h3 : (a :: t).filter (fun x => decide (x.id ≠ c.id)) =
          a :: t.filter (fun x => decide (x.id ≠ c.id)) := by
        rw [List.filter_cons]
        simp [hac]
      rw [h3]
      exact h1.trans h2

theorem filter_ne_append_self (l : List CardData) (c : CardData)
    (h : ∀ x ∈ l, x.id ≠ c.id) :
    (l ++ [c]).filter (fun x => decide (x.id ≠ c.id)) = l := by
  rw [List.filter_append]
  have h1 : l.filter (fun x => decide (x.id ≠ c.id)) = l :=
    List.filter_eq_self.mpr (fun x hx => by simpa using h x hx)
  have h2 : [c].filter (fun x => decide (x.id ≠ c.id)) = [] := by simp
  rw [h1, h2, List.append_nil]

theorem handleDraw_guard (s : GameState)
    (h : s.turn ≠ Turn.player ∨ s.phase ≠ GamePhase.playing ∨ s.showSuitPicker = true) :
    handleDraw s = s := by
  unfold handleDraw
  rw [if_pos h]

theorem handleDraw_empty (s : GameState)
    (ht : s.turn = Turn.player) (hp : s.phase = GamePhase.playing)
    (hw : s.showSuitPicker = false) (hd : s.deck = []) :
    handleDraw s = { s with message := Msg.deckEmptySkip, turn := Turn.ai } := by
  unfold handleDraw
  rw [if_neg (by simp [ht, hp, hw]), if_pos hd]

theorem handleDraw_valid (s : GameState) (drawn : CardData)
    (ht : s.turn = Turn.player) (hp : s.phase = GamePhase.playing)
    (hw : s.showSuitPicker = false) (hd : s.deck.getLast? = some drawn)
    (hv : isValidMoveS s drawn = true) :
    handleDraw s = { s with deck := s.deck.dropLast,
                            playerHand := s.playerHand ++ [drawn],
                            message := Msg.playerDrew } := by
  have hne : ¬s.deck = [] := by
    intro hnil
    rw [hnil] at hd
    cases hd
  unfold handleDraw
  rw [if_neg (by simp [ht, hp, hw]), if_neg hne]
  simp only [hd, hv, if_true]

theorem handleDraw_invalid (s : GameState) (drawn : CardData)
    (ht : s.turn = Turn.player) (hp : s.phase = GamePhase.playing)
    (hw : s.showSuitPicker = false) (hd : s.deck.getLast? = some drawn)
    (hv : isValidMoveS s drawn = false) :
    handleDraw s = { s with deck := s.deck.dropLast,
                            playerHand := s.playerHand ++ [drawn],
                            message := Msg.playerDrew,
                            turn := Turn.ai } := by
  have hne : ¬s.deck = [] := by
    intro hnil
    rw [hnil] at hd
    cases hd
  unfold handleDraw
  rw [if_neg (by simp [ht, hp, hw]), if_neg hne]
  simp only [hd, hv]
  rfl

theorem playCardPlayer_eight (s : GameState) (card : CardData) (h8 : card.rank = Rank.n8) :
    playCardPlayer s card = { s with pendingEightCard := some card, showSuitPicker := true } := by
  unfold playCardPlayer
  rw [if_pos h8]

theorem playCardPlayer_win (s : GameState) (card : CardData) (h8 : card.rank ≠ Rank.n8)
    (hlen : s.playerHand.length = 1) :
    playCardPlayer s card =
      { s with playerHand := s.playerHand.filter (fun c => decide (c.id ≠ card.id)),
               discardPile := s.discardPile ++ [card],
               currentSuit := some card.suit,
               phase := GamePhase.gameOver,
               message := Msg.playerWins } := by
  unfold playCardPlayer
  rw [if_neg h8]
  simp only [hlen, if_true]

theorem playCardPlayer_cont (s : GameState) (card : CardData) (h8 : card.rank ≠ Rank.n8)
    (hlen : s.playerHand.length ≠ 1) :
    playCardPlayer s card =
      { s with playerHand := s.playerHand.filter (fun c => decide (c.id ≠ card.id)),
               discardPile := s.discardPile ++ [card],
               currentSuit := some card.suit,
               turn := Turn.ai,
               message := Msg.aiThinking } := by
  unfold playCardPlayer
  rw [if_neg h8]
  simp only [hlen, if_false]

theorem handleSuitPick_none (s : GameState) (suit : Suit)
    (h : s.pendingEightCard = none) : handleSuitPick s suit = s := by
  unfold handleSuitPick
  rw [h]

theorem handleSuitPick_win (s : GameState) (suit : Suit) (pc : CardData)
    (h : s.pendingEightCard = some pc) (hlen : s.playerHand.length = 1) :
    handleSuitPick s suit =
      { s with playerHand := s.playerHand.filter (fun c => decide (c.id ≠ pc.id)),
               discardPile := s.discardPile ++ [pc],
               currentSuit := some suit,
               pendingEightCard := none,
               showSuitPicker := false,
               phase := GamePhase.gameOver,
               message := Msg.playerWins } := by
  unfold handleSuitPick
  rw [h]
  simp only [hlen, if_true]

theorem handleSuitPick_cont (s : GameState) (suit : Suit) (pc : CardData)
    (h : s.pendingEightCard = some pc) (hlen : s.playerHand.length ≠ 1) :
    handleSuitPick s suit =
      { s with playerHand := s.playerHand.filter (fun c => decide (c.id ≠ pc.id)),
               discardPile := s.discardPile ++ [pc],
               currentSuit := some suit,
               pendingEightCard := none,
               showSuitPicker := false,
               turn := Turn.ai,
               message := Msg.playerChoseSuit suit } := by
  unfold handleSuitPick
  rw [h]
  simp only [hlen, if_false]

theorem playCardAI_aiHand (cl : List CardData) (s : GameState) (card : CardData) :
    (playCardAI cl s card).aiHand = s.aiHand.filter (fun c => decide (c.id ≠ card.id)) := by
  unfold playCardAI
  split <;> split <;> rfl

theorem playCardAI_discardPile (cl : List CardData) (s : GameState) (card : CardData) :
    (playCardAI cl s card).discardPile = s.discardPile ++ [card] := by
  unfold playCardAI
  split <;> split <;> rfl

theorem playCardAI_playerHand (cl : List CardData) (s : GameState) (card : CardData) :
    (playCardAI cl s card).playerHand = s.playerHand := by
  unfold playCardAI
  split <;> split <;> rfl

theorem playCardAI_deck (cl : List CardData) (s : GameState) (card : CardData) :
    (playCardAI cl s card).deck = s.deck := by
  unfold playCardAI
  split <;> split <;> rfl

theorem playCardAI_pending (cl : List CardData) (s : GameState) (card : CardData) :
    (playCardAI cl s card).pendingEightCard = s.pendingEightCard := by
  unfold playCardAI
  split <;> split <;> rfl

theorem playCardAI_picker (cl : List CardData) (s : GameState) (card : CardData) :
    (playCardAI cl s card).showSuitPicker = s.showSuitPicker := by
  unfold playCardAI
  split <;> split <;> rfl

theorem playCardAI_currentSuit_eight (cl : List CardData) (s : GameState) (card : CardData)
    (h8 : card.rank = Rank.n8) :
    (playCardAI cl s card).currentSuit =
      some (bestSuitOf (cl.filter (fun c => decide (c.id ≠ card.id)))) := by
  simp only [playCardAI, h8, if_true, eq_self_iff_true]
  split <;> rfl

theorem playCardAI_currentSuit_noneight (cl : List CardData) (s : GameState) (card : CardData)
    (h8 : card.rank ≠ Rank.n8) :
    (playCardAI cl s card).currentSuit = some card.suit := by
  simp only [playCardAI, if_neg h8]
  split <;> rfl

theorem playCardAI_phase (cl : List CardData) (s : GameState) (card : CardData) :
    (playCardAI cl s card).phase =
      if cl.length = 1 then GamePhase.gameOver else s.phase := by
  unfold playCardAI
  split <;> split <;> simp_all

theorem playCardAI_turn (cl : List CardData) (s : GameState) (card : CardData) :
    (playCardAI cl s card).turn =
      if cl.length = 1 then s.turn else Turn.player := by
  unfold playCardAI
  split <;> split <;> simp_all

theorem aiStep_guard (s : GameState) (choice : Nat)
    (h : ¬(s.turn = Turn.ai ∧ s.phase = GamePhase.playing)) : aiStep s choice = s := by
  unfold aiStep
  rw [if_neg h]

theorem aiStep_eightOnly (s : GameState) (choice : Nat) (c0 : CardData) (rest : List CardData)
    (ht : s.turn = Turn.ai) (hp : s.phase = GamePhase.playing)
    (hf : s.aiHand.filter (fun c => isValidMoveS s c) = c0 :: rest)
    (hne : (c0 :: rest).filter (fun c => decide (c.rank ≠ Rank.n8)) = []) :
    aiStep s choice = playCardAI s.aiHand s c0 := by
  unfold aiStep
  rw [if_pos ⟨ht, hp⟩]
  simp only [hf, hne]

theorem aiStep_nonEight (s : GameState) (choice : Nat) (c0 ne0 : CardData)
    (rest netl : List CardData)
    (ht : s.turn = Turn.ai) (hp : s.phase = GamePhase.playing)
    (hf : s.aiHand.filter (fun c => isValidMoveS s c) = c0 :: rest)
    (hne : (c0 :: rest).filter (fun c => decide (c.rank ≠ Rank.n8)) = ne0 :: netl) :
    aiStep s choice =
      playCardAI s.aiHand s ((ne0 :: netl).getD (choice % (ne0 :: netl).length) c0) := by
  unfold aiStep
  rw [if_pos ⟨ht, hp⟩]
  simp only [hf, hne]

theorem aiStep_drawPlay (s : GameState) (choice : Nat) (drawn : CardData)
    (ht : s.turn = Turn.ai) (hp : s.phase = GamePhase.playing)
    (hf : s.aiHand.filter (fun c => isValidMoveS s c) = [])
    (hd : s.deck.getLast? = some drawn)
    (hv : isValidMoveS s drawn = true) :
    aiStep s choice =
      playCardAI s.aiHand
        { s with deck := s.deck.dropLast,
                 aiHand := s.aiHand ++ [drawn],
                 message := Msg.aiDrew } drawn := by
  unfold aiStep
  rw [if_pos ⟨ht, hp⟩]
  simp only [hf, hd, hv, if_true]

theorem aiStep_drawStop (s : GameState) (choice : Nat) (drawn : CardData)
    (ht : s.turn = Turn.ai) (hp : s.phase = GamePhase.playing)
    (hf : s.aiHand.filter (fun c => isValidMoveS s c) = [])
    (hd : s.deck.getLast? = some drawn)
    (hv : isValidMoveS s drawn = false) :
    aiStep s choice =
      { s with deck := s.deck.dropLast,
               aiHand := s.aiHand ++ [drawn],
               message := Msg.aiDrew,
               turn := Turn.player } := by
  unfold aiStep
  rw [if_pos ⟨ht, hp⟩]
  simp only [hf, hd, hv]
  rfl

theorem aiStep_skip (s : GameState) (choice : Nat)
    (ht : s.turn = Turn.ai) (hp : s.phase = GamePhase.playing)
    (hf : s.aiHand.filter (fun c => isValidMoveS s c) = [])
    (hd : s.deck.getLast? = none) :
    aiStep s choice = { s with message := Msg.aiSkip, turn := Turn.player } := by
  unfold aiStep
  rw [if_pos ⟨ht, hp⟩]
  simp only [hf, hd]

/-- The inductive invariant behind claim C2: the four containers hold 52
cards with pairwise-distinct ids, and a pending wild card is always an
element of the player's hand with the suit picker open. -/
def EngineInv (s : GameState) : Prop :=
  ((allCards s).map CardData.id).Nodup ∧ (allCards s).length = 52 ∧
    ∀ pc : CardData, s.pendingEightCard = some pc →
      s.showSuitPicker = true ∧ pc ∈ s.playerHand

theorem engineInv_of_perm {s s' : GameState} (h : EngineInv s)
    (hperm : (allCards s').Perm (allCards s))
    (hpend : ∀ pc : CardData, s'.pendingEightCard = some pc →
      s'.showSuitPicker = true ∧ pc ∈ s'.playerHand) : EngineInv s' :=
  ⟨(hperm.map CardData.id).nodup_iff.mpr h.1, hperm.length_eq.trans h.2.1, hpend⟩

theorem sublist_playerHand (s : GameState) : List.Sublist s.playerHand (allCards s) := by
  unfold allCards
  exact ((List.sublist_append_right s.deck s.playerHand).trans
      (List.sublist_append_left (s.deck ++ s.playerHand) s.aiHand)).trans
    (List.sublist_append_left (s.deck ++ s.playerHand ++ s.aiHand) s.discardPile)

theorem sublist_aiHand (s : GameState) : List.Sublist s.aiHand (allCards s) := by
  unfold allCards
  exact (List.sublist_append_right (s.deck ++ s.playerHand) s.aiHand).trans
    (List.sublist_append_left (s.deck ++ s.playerHand ++ s.aiHand) s.discardPile)

theorem nodup_ids_playerHand {s : GameState}
    (hn : ((allCards s).map CardData.id).Nodup) : (s.playerHand.map CardData.id).Nodup :=
  hn.sublist ((sublist_playerHand s).map CardData.id)

theorem nodup_ids_aiHand {s : GameState}
    (hn : ((allCards s).map CardData.id).Nodup) : (s.aiHand.map CardData.id).Nodup :=
  hn.sublist ((sublist_aiHand s).map CardData.id)

/-- A card still in the deck has an id different from every card in the
AI hand (from global id-distinctness). -/
theorem aiHand_id_ne_of_deck {s : GameState}
    (hn : ((allCards s).map CardData.id).Nodup) {d : CardData} (hd : d ∈ s.deck) :
    ∀ x ∈ s.aiHand, x.id ≠ d.id := by
  intro x hx hxd
  have h1 : ((s.deck ++ s.playerHand ++ s.aiHand ++ s.discardPile).map CardData.id).Nodup := by
    unfold allCards at hn
    exact hn
  rw [List.map_append, List.nodup_append] at h1
  obtain ⟨h2, -, -⟩ := h1
  rw [List.map_append, List.nodup_append] at h2
  obtain ⟨-, -, hdisj⟩ := h2
  apply hdisj ?_ (hxd ▸ List.mem_map_of_mem CardData.id hx)
  rw [List.map_append]
  exact List.mem_append_left _ (List.mem_map_of_mem CardData.id hd)

theorem perm_draw_second (dk ph ai dc : List CardData) (a : CardData) (dl : List CardData)
    (hdl : dk = dl ++ [a]) :
    (dk.dropLast ++ (ph ++ [a]) ++ ai ++ dc).Perm (dk ++ ph ++ ai ++ dc) := by
  subst hdl
  have hdrop : (dl ++ [a]).dropLast = dl := by simp
  rw [hdrop]
  apply perm_of_multiset
  simp only [← Multiset.coe_add, Multiset.coe_singleton]
  abel

theorem perm_draw_third (dk ph ai dc : List CardData) (a : CardData) (dl : List CardData)
    (hdl : dk = dl ++ [a]) :
    (dk.dropLast ++ ph ++ (ai ++ [a]) ++ dc).Perm (dk ++ ph ++ ai ++ dc) := by
  subst hdl
  have hdrop : (dl ++ [a]).dropLast = dl := by simp
  rw [hdrop]
  apply perm_of_multiset
  simp only [← Multiset.coe_add, Multiset.coe_singleton]
  abel

theorem perm_play_second (dk ph fh ai dc : List CardData) (c : CardData)
    (hperm : ph.Perm (c :: fh)) :
    (dk ++ fh ++ ai ++ (dc ++ [c])).Perm (dk ++ ph ++ ai ++ dc) := by
  apply perm_of_multiset
  have hm : (ph : Multiset CardData) = {c} + (fh : Multiset CardData) :=
    (Multiset.coe_eq_coe.mpr hperm).trans
      ((Multiset.cons_coe c fh).symm.trans (Multiset.singleton_add c (fh : Multiset CardData)).symm)
  simp only [← Multiset.coe_add, Multiset.coe_singleton, hm]
  abel

theorem perm_play_third (dk ph ai fa dc : List CardData) (c : CardData)
    (hperm : ai.Perm (c :: fa)) :
    (dk ++ ph ++ fa ++ (dc ++ [c])).Perm (dk ++ ph ++ ai ++ dc) := by
  apply perm_of_multiset
  have hm : (ai : Multiset CardData) = {c} + (fa : Multiset CardData) :=
    (Multiset.coe_eq_coe.mpr hperm).trans
      ((Multiset.cons_coe c fa).symm.trans (Multiset.singleton_add c (fa : Multiset CardData)).symm)
  simp only [← Multiset.coe_add, Multiset.coe_singleton, hm]
  abel

theorem perm_draw_then_play (dk ph ai dc : List CardData) (a : CardData) (dl : List CardData)
    (hdl : dk = dl ++ [a]) :
    (dk.dropLast ++ ph ++ ai ++ (dc ++ [a])).Perm (dk ++ ph ++ ai ++ dc) := by
  subst hdl
  have hdrop : (dl ++ [a]).dropLast = dl := by simp
  rw [hdrop]
  apply perm_of_multiset
  simp only [← Multiset.coe_add, Multiset.coe_singleton]
  abel

theorem playCardAI_inv_direct {s : GameState} (h : EngineInv s) {c : CardData}
    (hc : c ∈ s.aiHand) : EngineInv (playCardAI s.aiHand s c) := by
  refine engineInv_of_perm h ?_ ?_
  · have hperm : s.aiHand.Perm (c :: s.aiHand.filter (fun x => decide (x.id ≠ c.id))) :=
      perm_cons_filter_of_mem s.aiHand c hc (nodup_ids_aiHand h.1)
    simp only [allCards, playCardAI_deck, playCardAI_playerHand, playCardAI_aiHand,
      playCardAI_discardPile]
    exact perm_play_third s.deck s.playerHand s.aiHand _ s.discardPile c hperm
  · intro pc hpc
    rw [playCardAI_pending] at hpc
    rw [playCardAI_picker, playCardAI_playerHand]
    exact h.2.2 pc hpc

theorem playCardAI_inv_drawn {s : GameState} (h : EngineInv s) {drawn : CardData}
    {dl : List CardData} (hdl : s.deck = dl ++ [drawn]) :
    EngineInv (playCardAI s.aiHand
      { s with deck := s.deck.dropLast,
               aiHand := s.aiHand ++ [drawn],
               message := Msg.aiDrew } drawn) := by
  have hdmem : drawn ∈ s.deck := by
    rw [hdl]
    exact List.mem_append_right dl (List.mem_singleton_self drawn)
  have hne : ∀ x ∈ s.aiHand, x.id ≠ drawn.id := aiHand_id_ne_of_deck h.1 hdmem
  have hfilt : (s.aiHand ++ [drawn]).filter (fun x => decide (x.id ≠ drawn.id)) = s.aiHand :=
    filter_ne_append_self s.aiHand drawn hne
  refine engineInv_of_perm h ?_ ?_
  · simp only [allCards, playCardAI_deck, playCardAI_playerHand, playCardAI_aiHand,
      playCardAI_discardPile]
    rw [hfilt]
    exact perm_draw_then_play s.deck s.playerHand s.aiHand s.discardPile drawn dl hdl
  · intro pc hpc
    rw [playCardAI_pending] at hpc
    rw [playCardAI_picker, playCardAI_playerHand]
    exact h.2.2 pc hpc

theorem handleDraw_inv {s : GameState} (h : EngineInv s) : EngineInv (handleDraw s) := by
  obtain ⟨hn, hl, hpend⟩ := h
  by_cases hg : s.turn ≠ Turn.player ∨ s.phase ≠ GamePhase.playing ∨ s.showSuitPicker = true
  · rw [handleDraw_guard s hg]
    exact ⟨hn, hl, hpend⟩
  · push_neg at hg
    obtain ⟨ht, hp, hw⟩ := hg
    have hw' : s.showSuitPicker = false := by
      cases hb : s.showSuitPicker
      · rfl
      · exact absurd hb hw
    by_cases hd : s.deck = []
    · rw [handleDraw_empty s ht hp hw' hd]
      exact ⟨hn, hl, fun pc hpc => hpend pc hpc⟩
    · cases hdk : s.deck.getLast? with
      | none => exact absurd (List.getLast?_eq_none_iff.mp hdk) hd
      | some drawn =>
        obtain ⟨dl, hdl⟩ := List.getLast?_eq_some_iff.mp hdk
        have hperm :
            (s.deck.dropLast ++ (s.playerHand ++ [drawn]) ++ s.aiHand ++ s.discardPile).Perm
              (allCards s) :=
          perm_draw_second s.deck s.playerHand s.aiHand s.discardPile drawn dl hdl
        have hpend' : ∀ pc : CardData, s.pendingEightCard = some pc →
            s.showSuitPicker = true ∧ pc ∈ s.playerHand ++ [drawn] :=
          fun pc hpc => ⟨(hpend pc hpc).1, List.mem_append_left [drawn] (hpend pc hpc).2⟩
        by_cases hv : isValidMoveS s drawn = true
        · rw [handleDraw_valid s drawn ht hp hw' hdk hv]
          exact engineInv_of_perm ⟨hn, hl, hpend⟩ hperm hpend'
        · rw [handleDraw_invalid s drawn ht hp hw' hdk (by simpa using hv)]
          exact engineInv_of_perm ⟨hn, hl, hpend⟩ hperm hpend'

theorem playCardPlayer_inv {s : GameState} {card : CardData} (h : EngineInv s)
    (hmem : card ∈ s.playerHand) (hpick : s.showSuitPicker = false) :
    EngineInv (playCardPlayer s card) := by
  by_cases h8 : card.rank = Rank.n8
  · rw [playCardPlayer_eight s card h8]
    refine ⟨h.1, h.2.1, ?_⟩
    intro pc hpc
    have : card = pc := Option.some.inj hpc
    exact ⟨rfl, this ▸ hmem⟩
  · have hperm : s.playerHand.Perm (card :: s.playerHand.filter (fun x => decide (x.id ≠ card.id))) :=
      perm_cons_filter_of_mem s.playerHand card hmem (nodup_ids_playerHand h.1)
    have hperm' :
        (s.deck ++ s.playerHand.filter (fun x => decide (x.id ≠ card.id)) ++ s.aiHand ++
          (s.discardPile ++ [card])).Perm (allCards s) :=
      perm_play_second s.deck s.playerHand _ s.aiHand s.discardPile card hperm
    have hpend' : ∀ pc : CardData, s.pendingEightCard = some pc → False := by
      intro pc hpc
      have := (h.2.2 pc hpc).1
      rw [hpick] at this
      cases this
    by_cases hlen : s.playerHand.length = 1
    · rw [playCardPlayer_win s card h8 hlen]
      exact engineInv_of_perm h hperm' (fun pc hpc => absurd hpc (fun hh => hpend' pc hh))
    · rw [playCardPlayer_cont s card h8 hlen]
      exact engineInv_of_perm h hperm' (fun pc hpc => absurd hpc (fun hh => hpend' pc hh))

theorem handleSuitPick_inv {s : GameState} (suit : Suit) (h : EngineInv s) :
    EngineInv (handleSuitPick s suit) := by
  cases hpd : s.pendingEightCard with
  | none =>
      rw [handleSuitPick_none s suit hpd]
      exact h
  | some pc =>
      obtain ⟨hpk, hmem⟩ := h.2.2 pc hpd
      have hperm : s.playerHand.Perm (pc :: s.playerHand.filter (fun x => decide (x.id ≠ pc.id))) :=
        perm_cons_filter_of_mem s.playerHand pc hmem (nodup_ids_playerHand h.1)
      have hperm' :
          (s.deck ++ s.playerHand.filter (fun x => decide (x.id ≠ pc.id)) ++ s.aiHand ++
            (s.discardPile ++ [pc])).Perm (allCards s) :=
        perm_play_second s.deck s.playerHand _ s.aiHand s.discardPile pc hperm
      by_cases hlen : s.playerHand.length = 1
      · rw [handleSuitPick_win s suit pc hpd hlen]
        exact engineInv_of_perm h hperm' (fun pc' hpc' => by cases hpc')
      · rw [handleSuitPick_cont s suit pc hpd hlen]
        exact engineInv_of_perm h hperm' (fun pc' hpc' => by cases hpc')

theorem aiStep_inv {s : GameState} (choice : Nat) (h : EngineInv s) :
    EngineInv (aiStep s choice) := by
  by_cases hg : s.turn = Turn.ai ∧ s.phase = GamePhase.playing
  · obtain ⟨ht, hp⟩ := hg
    cases hf : s.aiHand.filter (fun c => isValidMoveS s c) with
    | cons c0 rest =>
        have hc0f : c0 ∈ s.aiHand.filter (fun c => isValidMoveS s c) := by
          rw [hf]
          exact List.mem_cons_self c0 rest
        have hc0 : c0 ∈ s.aiHand := (List.mem_filter.mp hc0f).1
        cases hne : (c0 :: rest).filter (fun c => decide (c.rank ≠ Rank.n8)) with
        | nil =>
            rw [aiStep_eightOnly s choice c0 rest ht hp hf hne]
            exact playCardAI_inv_direct h hc0
        | cons ne0 netl =>
            rw [aiStep_nonEight s choice c0 ne0 rest netl ht hp hf hne]
            apply playCardAI_inv_direct h
            have hlt : choice % (ne0 :: netl).length < (ne0 :: netl).length :=
              Nat.mod_lt _ (by simp)
            have hmem1 : (ne0 :: netl).getD (choice % (ne0 :: netl).length) c0 ∈ ne0 :: netl := by
              rw [List.getD_eq_getElem?_getD, List.getElem?_eq_getElem hlt]
              exact List.getElem_mem hlt
            have hmem1b : (ne0 :: netl).getD (choice % (ne0 :: netl).length) c0 ∈
                (c0 :: rest).filter (fun c => decide (c.rank ≠ Rank.n8)) := by
              rw [hne]
              exact hmem1
            have hmem2 : (ne0 :: netl).getD (choice % (ne0 :: netl).length) c0 ∈ c0 :: rest :=
              (List.mem_filter.mp hmem1b).1
            have hmem3 : (ne0 :: netl).getD (choice % (ne0 :: netl).length) c0 ∈
                s.aiHand.filter (fun c => isValidMoveS s c) := by
              rw [hf]
              exact hmem2
            exact (List.mem_filter.mp hmem3).1
    | nil =>
        cases hdk : s.deck.getLast? with
        | some drawn =>
            obtain ⟨dl, hdl⟩ := List.getLast?_eq_some_iff.mp hdk
            by_cases hv : isValidMoveS s drawn = true
            · rw [aiStep_drawPlay s choice drawn ht hp hf hdk hv]
              exact playCardAI_inv_drawn h hdl
            · rw [aiStep_drawStop s choice drawn ht hp hf hdk (by simpa using hv)]
              refine engineInv_of_perm h ?_ ?_
              · exact perm_draw_third s.deck s.playerHand s.aiHand s.discardPile drawn dl hdl
              · intro pc hpc
                exact ⟨(h.2.2 pc hpc).1, (h.2.2 pc hpc).2⟩
        | none =>
            rw [aiStep_skip s choice ht hp hf hdk]
            exact ⟨h.1, h.2.1, fun pc hpc => h.2.2 pc hpc⟩
  · rw [aiStep_guard s choice hg]
    exact h

theorem initGame_inv {d : List CardData} (hd : d.Perm createDeck) : EngineInv (initGame d) := by
  have h52 : d.length = 52 := hd.length_eq.trans (by decide)
  have hr : (d.drop 16).length = 36 := by simp [h52]
  cases hdk : (d.drop 16).getLast? with
  | none =>
      rw [List.getLast?_eq_none_iff] at hdk
      rw [hdk] at hr
      cases hr
  | some fd =>
      obtain ⟨ys, hys⟩ := List.getLast?_eq_some_iff.mp hdk
      have hdrop : (d.drop 16).dropLast = ys := by rw [hys]; simp
      have hpermd : ((d.drop 16).dropLast ++ d.take 8 ++ (d.drop 8).take 8 ++ [fd]).Perm d := by
        apply perm_of_multiset
        have h3 : (d.drop 8).drop 8 = d.drop 16 := by simp [List.drop_drop]
        have h1 : ((d.take 8 ++ d.drop 8 : List CardData) : Multiset CardData) = ↑d := by
          rw [List.take_append_drop]
        have h2 : (((d.drop 8).take 8 ++ (d.drop 8).drop 8 : List CardData) : Multiset CardData) =
            ↑(d.drop 8) := by
          rw [List.take_append_drop]
        have h4 : ((ys ++ [fd] : List CardData) : Multiset CardData) = ↑(d.drop 16) := by
          rw [← hys]
        rw [hdrop]
        simp only [← Multiset.coe_add, Multiset.coe_singleton] at h1 h2 h4 ⊢
        rw [h3] at h2
        rw [← h1, ← h2, ← h4]
        abel
      have hperm : ((d.drop 16).dropLast ++ d.take 8 ++ (d.drop 8).take 8 ++ [fd]).Perm
          createDeck := hpermd.trans hd
      simp only [initGame, hdk]
      refine ⟨?_, ?_, ?_⟩
      · simp only [allCards]
        exact (hperm.map CardData.id).nodup_iff.mpr (by decide)
      · simp only [allCards]
        exact hperm.length_eq.trans (by decide)
      · intro pc hpc
        cases hpc

theorem step_inv {s s' : GameState} (hstep : Step s s') (h : EngineInv s) : EngineInv s' := by
  cases hstep with
  | draw => exact handleDraw_inv h
  | play card hmem hturn hphase hvalid hpick => exact playCardPlayer_inv h hmem hpick
  | pick suit => exact handleSuitPick_inv suit h
  | ai choice => exact aiStep_inv choice h

theorem reachable_inv {s : GameState} (h : ReachableState s) : EngineInv s := by
  obtain ⟨s0, ⟨rand, hs0⟩, hreach⟩ := h
  have h0 : EngineInv s0 := by
    rw [hs0]
    exact initGame_inv (shuffle_perm rand createDeck)
  induction hreach with
  | refl => exact h0
  | tail hab hbc ih => exact step_inv hbc ih

theorem insertDesc_mem (cnt : Suit → Nat) (x y : Suit) :
    ∀ l : List Suit, y ∈ insertDesc cnt x l ↔ y = x ∨ y ∈ l := by
  intro l
  induction l with
  | nil => simp [insertDesc]
  | cons a t ih =>
      unfold insertDesc
      by_cases hc : cnt a < cnt x
      · rw [if_pos hc]
        simp [List.mem_cons]
      · rw [if_neg hc]
        simp only [List.mem_cons, ih]
        tauto

theorem sortDesc_mem (cnt : Suit → Nat) (y : Suit) :
    ∀ l : List Suit, y ∈ sortDesc cnt l ↔ y ∈ l := by
  intro l
  induction l with
  | nil => simp [sortDesc]
  | cons a t ih =>
      unfold sortDesc
      rw [insertDesc_mem]
      simp only [List.mem_cons, ih]

theorem sortDesc_head_max (cnt : Suit → Nat) :
    ∀ (l : List Suit) (b : Suit) (t : List Suit),
      sortDesc cnt l = b :: t → ∀ x ∈ l, cnt x ≤ cnt b := by
  intro l
  induction l with
  | nil => intro b t hbt; cases hbt
  | cons a l2 ih =>
      intro b t hbt x hx
      unfold sortDesc at hbt
      cases hsort : sortDesc cnt l2 with
      | nil =>
          have hl2 : l2 = [] := by
            cases hl2 : l2 with
            | nil => rfl
            | cons z zs =>
                exfalso
                have : z ∈ sortDesc cnt l2 := (sortDesc_mem cnt z l2).mpr (by rw [hl2]; simp)
                rw [hsort] at this
                cases this
          rw [hsort] at hbt
          unfold insertDesc at hbt
          have hba : b = a := by
            have := hbt
            injection this with h1 h2
            exact h1.symm
          rcases List.mem_cons.mp hx with hxa | hxl2
          · rw [hba, hxa]
          · rw [hl2] at hxl2
            cases hxl2
      | cons b2 t2 =>
          rw [hsort] at hbt
          have ihb2 : ∀ x ∈ l2, cnt x ≤ cnt b2 := ih b2 t2 hsort
          unfold insertDesc at hbt
          by_cases hc : cnt b2 < cnt a
          · rw [if_pos hc] at hbt
            injection hbt with h1 h2
            rcases List.mem_cons.mp hx with hxa | hxl2
            · rw [← h1, hxa]
            · exact le_trans (ihb2 x hxl2) (le_of_lt (h1 ▸ hc))
          · rw [if_neg hc] at hbt
            injection hbt with h1 h2
            rcases List.mem_cons.mp hx with hxa | hxl2
            · rw [hxa, ← h1]
              exact le_of_not_lt hc
            · exact h1 ▸ ihb2 x hxl2

theorem insertKeys_mem (x : Suit) (l : List Suit) : x ∈ insertKeys l ↔ x ∈ l := by
  have hgen : ∀ (l acc : List Suit),
      x ∈ l.foldl (fun acc t => if t ∈ acc then acc else acc ++ [t]) acc ↔ x ∈ acc ∨ x ∈ l := by
    intro l
    induction l with
    | nil => intro acc; simp
    | cons a t ih =>
        intro acc
        simp only [List.foldl_cons, ih]
        by_cases ha : a ∈ acc
        · rw [if_pos ha]
          constructor
          · rintro (h | h)
            · exact Or.inl h
            · exact Or.inr (List.mem_cons_of_mem a h)
          · rintro (h | h)
            · exact Or.inl h
            · rcases List.mem_cons.mp h with h | h
              · exact Or.inl (h ▸ ha)
              · exact Or.inr h
        · rw [if_neg ha]
          constructor
          · rintro (h | h)
            · rcases List.mem_append.mp h with h | h
              · exact Or.inl h
              · exact Or.inr (List.mem_cons.mpr (Or.inl (List.mem_singleton.mp h)))
            · exact Or.inr (List.mem_cons_of_mem a h)
          · rintro (h | h)
            · exact Or.inl (List.mem_append_left _ h)
            · rcases List.mem_cons.mp h with h | h
              · exact Or.inl (List.mem_append_right _ (h ▸ List.mem_singleton_self a))
              · exact Or.inr h
  rw [insertKeys, hgen]
  simp

theorem suitCount_eq_zero_of_not_mem (remaining : List CardData) (t : Suit)
    (h : t ∉ remaining.map (fun c => c.suit)) : suitCount remaining t = 0 := by
  unfold suitCount
  rw [List.length_eq_zero]
  rw [List.filter_eq_nil_iff]
  intro c hc
  simp only [decide_eq_true_eq]
  intro hct
  exact h (hct ▸ List.mem_map_of_mem (fun c => c.suit) hc)

/-- The nominated suit maximises the per-suit count of the remaining hand. -/
theorem bestSuitOf_max (remaining : List CardData) (t : Suit) :
    suitCount remaining t ≤ suitCount remaining (bestSuitOf remaining) := by
  unfold bestSuitOf
  cases hsort : sortDesc (suitCount remaining) (insertKeys (remaining.map (fun c => c.suit))) with
  | nil =>
      have hempty : remaining.map (fun c => c.suit) = [] := by
        cases hl : remaining.map (fun c => c.suit) with
        | nil => rfl
        | cons z zs =>
            exfalso
            have hz : z ∈ insertKeys (remaining.map (fun c => c.suit)) :=
              (insertKeys_mem z _).mpr (by rw [hl]; simp)
            have := (sortDesc_mem (suitCount remaining) z _).mpr hz
            rw [hsort] at this
            cases this
      have : suitCount remaining t = 0 :=
        suitCount_eq_zero_of_not_mem remaining t (by rw [hempty]; simp)
      simp [this]
  | cons b bs =>
      by_cases hmem : t ∈ remaining.map (fun c => c.suit)
      · exact sortDesc_head_max (suitCount remaining) _ b bs hsort t
          ((insertKeys_mem t _).mpr hmem)
      · have : suitCount remaining t = 0 := suitCount_eq_zero_of_not_mem remaining t hmem
        simp [this]

/-- On an empty remaining hand the fallback suit is hearts. -/
theorem bestSuitOf_nil : bestSuitOf [] = Suit.hearts := by
  rfl

/-- C1: for every card, top discard and active suit, the move validator
accepts exactly when the card is an eight, or its suit equals the active
suit, or its rank equals the top discard's rank; being a plain function of
these three inputs, it is referentially transparent by construction. -/
theorem claim1_isValidMove_iff (card topDiscard : CardData) (activeSuit : Suit) :
    isValidMove card (some topDiscard) (some activeSuit) = true ↔
      (card.rank = Rank.n8 ∨ card.suit = activeSuit ∨ card.rank = topDiscard.rank) := by
  unfold isValidMove
  by_cases h8 : card.rank = Rank.n8
  · simp [h8]
  · rw [if_neg h8]
    by_cases hs : card.suit = activeSuit
    · simp [hs]
    · simp [hs, h8]

/-- C4 counterexample: with the identity shuffle, the initial discard is
not the seventeenth card of the build order (it is the far-end card). -/
theorem claim4_counterexample :
    (initGame (shuffle (fun n => n) createDeck)).discardPile ≠
      [createDeck.getD 16 ⟨(Rank.A, Suit.hearts), Suit.hearts, Rank.A⟩] := by
  decide

/-- C4 amended: the identity shuffle leaves the deck in build order; the
deal then gives the player the first 8 cards and the opponent the next 8,
but the initial discard is popped from the far end, so it is the last
(52nd) card of the build order, the king of spades; the draw pile is cards
17 through 51 in order (35 cards) and the active suit is the discard's
suit, spades. -/
theorem claim4_amended :
    shuffle (fun n => n) createDeck = createDeck ∧
    (initGame (shuffle (fun n => n) createDeck)).playerHand = createDeck.take 8 ∧
    (initGame (shuffle (fun n => n) createDeck)).aiHand = (createDeck.drop 8).take 8 ∧
    (initGame (shuffle (fun n => n) createDeck)).discardPile =
      [⟨(Rank.K, Suit.spades), Suit.spades, Rank.K⟩] ∧
    createDeck.getD 51 ⟨(Rank.A, Suit.hearts), Suit.hearts, Rank.A⟩ =
      ⟨(Rank.K, Suit.spades), Suit.spades, Rank.K⟩ ∧
    (initGame (shuffle (fun n => n) createDeck)).deck = (createDeck.drop 16).dropLast ∧
    (initGame (shuffle (fun n => n) createDeck)).deck.length = 35 ∧
    (initGame (shuffle (fun n => n) createDeck)).currentSuit = some Suit.spades := by
  decide

/-- C5: playing an eight as the human only records the pending wild (the
phase, turn, hands and piles are untouched), and resolving it moves the
pending card from the hand to the top of the discard pile, sets the active
suit to the chosen suit, and clears the pending wild. -/
theorem claim5_wild_protocol (s : GameState) (card : CardData) (h8 : card.rank = Rank.n8) :
    ((playCardPlayer s card).phase = s.phase ∧
     (playCardPlayer s card).turn = s.turn ∧
     (playCardPlayer s card).pendingEightCard = some card ∧
     (playCardPlayer s card).showSuitPicker = true ∧
     (playCardPlayer s card).playerHand = s.playerHand ∧
     (playCardPlayer s card).deck = s.deck ∧
     (playCardPlayer s card).discardPile = s.discardPile) ∧
    (∀ (sp : GameState) (chosenSuit : Suit), sp.pendingEightCard = some card →
      (handleSuitPick sp chosenSuit).playerHand =
        sp.playerHand.filter (fun c => decide (c.id ≠ card.id)) ∧
      (handleSuitPick sp chosenSuit).discardPile = sp.discardPile ++ [card] ∧
      (handleSuitPick sp chosenSuit).discardPile.getLast? = some card ∧
      (handleSuitPick sp chosenSuit).currentSuit = some chosenSuit ∧
      (handleSuitPick sp chosenSuit).pendingEightCard = none ∧
      (handleSuitPick sp chosenSuit).showSuitPicker = false) := by
  constructor
  · rw [playCardPlayer_eight s card h8]
    exact ⟨rfl, rfl, rfl, rfl, rfl, rfl, rfl⟩
  · intro sp chosenSuit hpd
    by_cases hlen : sp.playerHand.length = 1
    · rw [handleSuitPick_win sp chosenSuit card hpd hlen]
      exact ⟨rfl, rfl, by simp, rfl, rfl, rfl⟩
    · rw [handleSuitPick_cont sp chosenSuit card hpd hlen]
      exact ⟨rfl, rfl, by simp, rfl, rfl, rfl⟩

def w5Card : CardData := ⟨(Rank.n8, Suit.hearts), Suit.hearts, Rank.n8⟩

theorem claim5_wild_protocol_witness :
    (playCardPlayer (initGame createDeck) w5Card).pendingEightCard = some w5Card ∧
    (handleSuitPick (playCardPlayer (initGame createDeck) w5Card) Suit.clubs).currentSuit =
      some Suit.clubs := by
  have h := claim5_wild_protocol (initGame createDeck) w5Card rfl
  exact ⟨h.1.2.2.1,
    (h.2 (playCardPlayer (initGame createDeck) w5Card) Suit.clubs h.1.2.2.1).2.2.2.1⟩

/-- C2: every state reachable from a new game by draw, play,
wild-resolution and AI-turn steps carries 52 cards across the four
containers, with pairwise distinct card ids (no id occurs in two
containers, nor twice anywhere). -/
theorem claim2_conservation {s : GameState} (h : ReachableState s) :
    s.deck.length + s.playerHand.length + s.aiHand.length + s.discardPile.length = 52 ∧
      ((allCards s).map CardData.id).Nodup := by
  have hinv := reachable_inv h
  constructor
  · have hlen := hinv.2.1
    simp only [allCards, List.length_append] at hlen
    omega
  · exact hinv.1

theorem claim2_conservation_witness :
    (initGame (shuffle (fun n => n) createDeck)).deck.length +
        (initGame (shuffle (fun n => n) createDeck)).playerHand.length +
        (initGame (shuffle (fun n => n) createDeck)).aiHand.length +
        (initGame (shuffle (fun n => n) createDeck)).discardPile.length = 52 ∧
      ((allCards (initGame (shuffle (fun n => n) createDeck))).map CardData.id).Nodup :=
  claim2_conservation
    ⟨initGame (shuffle (fun n => n) createDeck), ⟨fun n => n, rfl⟩, Relation.ReflTransGen.refl⟩

def c3AiCard : CardData := ⟨(Rank.n7, Suit.hearts), Suit.hearts, Rank.n7⟩

def c3TopCard : CardData := ⟨(Rank.n3, Suit.spades), Suit.spades, Rank.n3⟩

def c3DrawCard : CardData := ⟨(Rank.n3, Suit.diamonds), Suit.diamonds, Rank.n3⟩

def c3PlayerCard : CardData := ⟨(Rank.A, Suit.hearts), Suit.hearts, Rank.A⟩

/-- A legitimate mid-game position: the opponent is to move holding one
card that is not playable (7 of hearts against active suit spades and top
discard 3 of spades), the deck's draw end holds a playable card (3 of
diamonds), and all 52 cards are distributed across the containers. -/
def c3State : GameState :=
  { deck := (createDeck.filter
      (fun c => decide (c ∉ [c3AiCard, c3TopCard, c3DrawCard, c3PlayerCard]))) ++ [c3DrawCard]
    playerHand := [c3PlayerCard]
    aiHand := [c3AiCard]
    discardPile := [c3TopCard]
    currentSuit := some Suit.spades
    turn := Turn.ai
    phase := GamePhase.playing
    showSuitPicker := false
    pendingEightCard := none
    message := Msg.aiThinking }

/-- C3 is violated by the code: in the AI draw-then-play path the win
check reads the stale pre-draw hand length, so from c3State the AI draws
the 3 of diamonds, plays it, and the phase becomes gameOver although the
AI still holds the 7 of hearts and the player holds a card — gameOver
without any empty hand.  The state is a full 52-card position satisfying
the conservation invariant. -/
theorem claim3_gameOver_bug :
    (aiStep c3State 0).phase = GamePhase.gameOver ∧
      (aiStep c3State 0).aiHand = [c3AiCard] ∧
      (aiStep c3State 0).playerHand = [c3PlayerCard] ∧
      ((allCards c3State).map CardData.id).Nodup ∧
      (allCards c3State).length = 52 ∧
      c3State.pendingEightCard = none := by
  refine ⟨by decide, by decide, by decide, by decide, by decide, by decide⟩

/-- C6: drawing from an empty deck passes the turn with no other change;
from a non-empty deck exactly the draw-end card moves into the drawing
side's hand, after which the human auto-passes exactly when the drawn
card is illegal, while the opponent immediately plays a legal drawn card
and passes on an illegal one. -/
theorem claim6_draw_semantics (s : GameState) (choice : Nat) :
    (s.turn = Turn.player → s.phase = GamePhase.playing → s.showSuitPicker = false →
      (s.deck = [] →
        handleDraw s = { s with message := Msg.deckEmptySkip, turn := Turn.ai }) ∧
      (∀ drawn : CardData, s.deck.getLast? = some drawn →
        (handleDraw s).deck = s.deck.dropLast ∧
        (handleDraw s).playerHand = s.playerHand ++ [drawn] ∧
        (handleDraw s).aiHand = s.aiHand ∧
        (handleDraw s).discardPile = s.discardPile ∧
        ((handleDraw s).turn = Turn.ai ↔ isValidMoveS s drawn = false))) ∧
    (s.turn = Turn.ai → s.phase = GamePhase.playing →
      s.aiHand.filter (fun c => isValidMoveS s c) = [] →
      (s.deck = [] →
        aiStep s choice = { s with message := Msg.aiSkip, turn := Turn.player }) ∧
      (∀ drawn : CardData, s.deck.getLast? = some drawn →
        (isValidMoveS s drawn = true →
          aiStep s choice =
            playCardAI s.aiHand
              { s with deck := s.deck.dropLast, aiHand := s.aiHand ++ [drawn],
                       message := Msg.aiDrew } drawn) ∧
        (isValidMoveS s drawn = false →
          aiStep s choice =
            { s with deck := s.deck.dropLast, aiHand := s.aiHand ++ [drawn],
                     message := Msg.aiDrew, turn := Turn.player }))) := by
  constructor
  · intro ht hp hw
    constructor
    · intro hd
      exact handleDraw_empty s ht hp hw hd
    · intro drawn hdk
      by_cases hv : isValidMoveS s drawn = true
      · rw [handleDraw_valid s drawn ht hp hw hdk hv]
        refine ⟨rfl, rfl, rfl, rfl, ?_⟩
        constructor
        · intro hta
          rw [ht] at hta
          cases hta
        · intro hvf
          rw [hv] at hvf
          cases hvf
      · rw [handleDraw_invalid s drawn ht hp hw hdk (by simpa using hv)]
        exact ⟨rfl, rfl, rfl, rfl, ⟨fun _ => by simpa using hv, fun _ => rfl⟩⟩
  · intro ht hp hf
    constructor
    · intro hd
      exact aiStep_skip s choice ht hp hf (List.getLast?_eq_none_iff.mpr hd)
    · intro drawn hdk
      constructor
      · intro hv
        exact aiStep_drawPlay s choice drawn ht hp hf hdk hv
      · intro hv
        exact aiStep_drawStop s choice drawn ht hp hf hdk hv

def w6State : GameState :=
  { deck := []
    playerHand := [c3PlayerCard]
    aiHand := [c3AiCard]
    discardPile := [c3TopCard]
    currentSuit := some Suit.spades
    turn := Turn.ai
    phase := GamePhase.playing
    showSuitPicker := false
    pendingEightCard := none
    message := Msg.aiThinking }

theorem claim6_draw_semantics_witness :
    aiStep w6State 0 = { w6State with message := Msg.aiSkip, turn := Turn.player } ∧
      (handleDraw (initGame createDeck)).playerHand =
        (initGame createDeck).playerHand ++ [⟨(Rank.Q, Suit.spades), Suit.spades, Rank.Q⟩] := by
  constructor
  · exact ((claim6_draw_semantics w6State 0).2 rfl rfl (by decide)).1 rfl
  · exact (((claim6_draw_semantics (initGame createDeck) 0).1 rfl rfl rfl).2
      ⟨(Rank.Q, Suit.spades), Suit.spades, Rank.Q⟩ (by decide)).2.1

/-- C7: with at least one legal card the opponent plays the uniformly
indexed non-eight legal candidate whenever one exists (the played card is
a legal non-eight), and plays an eight only when every legal candidate is
an eight. -/
theorem claim7_ai_policy (s : GameState) (choice : Nat)
    (ht : s.turn = Turn.ai) (hp : s.phase = GamePhase.playing) :
    ∀ (c0 : CardData) (rest : List CardData),
      s.aiHand.filter (fun c => isValidMoveS s c) = c0 :: rest →
      (∀ (ne0 : CardData) (netl : List CardData),
        (c0 :: rest).filter (fun c => decide (c.rank ≠ Rank.n8)) = ne0 :: netl →
        ∃ c : CardData,
          c = (ne0 :: netl).getD (choice % (ne0 :: netl).length) c0 ∧
          c ∈ ne0 :: netl ∧ c.rank ≠ Rank.n8 ∧ isValidMoveS s c = true ∧
          aiStep s choice = playCardAI s.aiHand s c) ∧
      ((c0 :: rest).filter (fun c => decide (c.rank ≠ Rank.n8)) = [] →
        (∀ c ∈ c0 :: rest, c.rank = Rank.n8) ∧
        aiStep s choice = playCardAI s.aiHand s c0) := by
  intro c0 rest hf
  constructor
  · intro ne0 netl hne
    refine ⟨(ne0 :: netl).getD (choice % (ne0 :: netl).length) c0, rfl, ?_, ?_, ?_, ?_⟩
    · have hlt : choice % (ne0 :: netl).length < (ne0 :: netl).length :=
        Nat.mod_lt _ (by simp)
      rw [List.getD_eq_getElem?_getD, List.getElem?_eq_getElem hlt]
      exact List.getElem_mem hlt
    · have hlt : choice % (ne0 :: netl).length < (ne0 :: netl).length :=
        Nat.mod_lt _ (by simp)
      have hmem : (ne0 :: netl).getD (choice % (ne0 :: netl).length) c0 ∈ ne0 :: netl := by
        rw [List.getD_eq_getElem?_getD, List.getElem?_eq_getElem hlt]
        exact List.getElem_mem hlt
      have hmem2 : (ne0 :: netl).getD (choice % (ne0 :: netl).length) c0 ∈
          (c0 :: rest).filter (fun c => decide (c.rank ≠ Rank.n8)) := by
        rw [hne]
        exact hmem
      have := (List.mem_filter.mp hmem2).2
      simpa using this
    · have hlt : choice % (ne0 :: netl).length < (ne0 :: netl).length :=
        Nat.mod_lt _ (by simp)
      have hmem : (ne0 :: netl).getD (choice % (ne0 :: netl).length) c0 ∈ ne0 :: netl := by
        rw [List.getD_eq_getElem?_getD, List.getElem?_eq_getElem hlt]
        exact List.getElem_mem hlt
      have hmem2 : (ne0 :: netl).getD (choice % (ne0 :: netl).length) c0 ∈
          (c0 :: rest).filter (fun c => decide (c.rank ≠ Rank.n8)) := by
        rw [hne]
        exact hmem
      have hmem3 : (ne0 :: netl).getD (choice % (ne0 :: netl).length) c0 ∈
          s.aiHand.filter (fun c => isValidMoveS s c) := by
        rw [hf]
        exact (List.mem_filter.mp hmem2).1
      exact (List.mem_filter.mp hmem3).2
    · exact aiStep_nonEight s choice c0 ne0 rest netl ht hp hf hne
  · intro hne
    constructor
    · intro c hc
      have := List.filter_eq_nil_iff.mp hne c hc
      simpa using this
    · exact aiStep_eightOnly s choice c0 rest ht hp hf hne

def w7Card8S : CardData := ⟨(Rank.n8, Suit.spades), Suit.spades, Rank.n8⟩

def w7Card3H : CardData := ⟨(Rank.n3, Suit.hearts), Suit.hearts, Rank.n3⟩

def w7Card3D : CardData := ⟨(Rank.n3, Suit.diamonds), Suit.diamonds, Rank.n3⟩

def w7Card3C : CardData := ⟨(Rank.n3, Suit.clubs), Suit.clubs, Rank.n3⟩

/-- Scenario C of the spec: opponent hand 8 of spades plus the three other
threes, top discard 3 of spades, active suit spades. -/
def w7State : GameState :=
  { deck := []
    playerHand := [c3PlayerCard]
    aiHand := [w7Card8S, w7Card3H, w7Card3D, w7Card3C]
    discardPile := [c3TopCard]
    currentSuit := some Suit.spades
    turn := Turn.ai
    phase := GamePhase.playing
    showSuitPicker := false
    pendingEightCard := none
    message := Msg.aiThinking }

theorem claim7_ai_policy_witness :
    aiStep w7State 0 = playCardAI w7State.aiHand w7State w7Card3H ∧
      w7Card3H.rank ≠ Rank.n8 := by
  have h := (claim7_ai_policy w7State 0 rfl rfl w7Card8S [w7Card3H, w7Card3D, w7Card3C]
    (by decide)).1 w7Card3H [w7Card3D, w7Card3C] (by decide)
  obtain ⟨c, hceq, hmem, hne8, hvalid, hstep⟩ := h
  have hc : c = w7Card3H := by
    rw [hceq]
    decide
  rw [hc] at hstep hne8
  exact ⟨hstep, hne8⟩

/-- C8: when the opponent plays an eight, the nominated active suit is
computed from the closure hand with the played eight removed, it maximises
the per-suit card count of that remaining hand, and it falls back to
hearts when the remaining hand is empty. -/
theorem claim8_ai_eight_suit (cl : List CardData) (s : GameState) (card : CardData)
    (h8 : card.rank = Rank.n8) :
    (playCardAI cl s card).currentSuit =
      some (bestSuitOf (cl.filter (fun c => decide (c.id ≠ card.id)))) ∧
    (∀ t : Suit,
      suitCount (cl.filter (fun c => decide (c.id ≠ card.id))) t ≤
        suitCount (cl.filter (fun c => decide (c.id ≠ card.id)))
          (bestSuitOf (cl.filter (fun c => decide (c.id ≠ card.id))))) ∧
    (cl.filter (fun c => decide (c.id ≠ card.id)) = [] →
      bestSuitOf (cl.filter (fun c => decide (c.id ≠ card.id))) = Suit.hearts) := by
  refine ⟨playCardAI_currentSuit_eight cl s card h8, fun t => bestSuitOf_max _ t, ?_⟩
  intro hnil
  rw [hnil]
  exact bestSuitOf_nil

def w8Closure : List CardData :=
  [w7Card8S, ⟨(Rank.n5, Suit.diamonds), Suit.diamonds, Rank.n5⟩,
    ⟨(Rank.n9, Suit.diamonds), Suit.diamonds, Rank.n9⟩,
    ⟨(Rank.n2, Suit.clubs), Suit.clubs, Rank.n2⟩]

theorem claim8_ai_eight_suit_witness :
    (playCardAI w8Closure w7State w7Card8S).currentSuit = some Suit.diamonds := by
  have h := (claim8_ai_eight_suit w8Closure w7State w7Card8S rfl).1
  rw [h]
  decide

/-- A state in which it is not the player's turn, used to exercise the
rejection paths. -/
def c9State : GameState :=
  { deck := [c3DrawCard]
    playerHand := [c3PlayerCard]
    aiHand := [c3AiCard]
    discardPile := [c3TopCard]
    currentSuit := some Suit.spades
    turn := Turn.ai
    phase := GamePhase.playing
    showSuitPicker := false
    pendingEightCard := none
    message := Msg.aiThinking }

/-- C9 counterexample: an out-of-turn draw is rejected with no state
change at all — in particular the status message is unchanged, so no
reason is reported; the rejection is silent, contradicting the claim. -/
theorem claim9_counterexample :
    handleDraw c9State = c9State ∧ (handleDraw c9State).message = c9State.message := by
  exact ⟨by decide, by decide⟩

def c9PlayCard : CardData := ⟨(Rank.n3, Suit.spades), Suit.spades, Rank.n3⟩

/-- Same position, but exercising the unguarded play entry point. -/
def c9PlayState : GameState :=
  { deck := [c3DrawCard]
    playerHand := [c9PlayCard, c3PlayerCard]
    aiHand := [c3AiCard]
    discardPile := [c3TopCard]
    currentSuit := some Suit.spades
    turn := Turn.ai
    phase := GamePhase.playing
    showSuitPicker := false
    pendingEightCard := none
    message := Msg.aiThinking }

/-- C9 amended: out-of-turn, out-of-phase or mid-wild draw calls and
wild resolutions without a pending wild are rejected with no state change,
but silently — no reason is reported; the play entry point has no internal
guard at all, so a direct out-of-turn play call does change state (it is
prevented only by the caller's pre-filtering). -/
theorem claim9_amended_rejections (s : GameState) (suit : Suit) :
    (¬(s.turn = Turn.player ∧ s.phase = GamePhase.playing ∧ s.showSuitPicker = false) →
      handleDraw s = s) ∧
    (s.pendingEightCard = none → handleSuitPick s suit = s) ∧
    (playCardPlayer c9PlayState c9PlayCard ≠ c9PlayState ∧ c9PlayState.turn = Turn.ai) := by
  refine ⟨?_, ?_, by decide, by decide⟩
  · intro hng
    apply handleDraw_guard
    by_contra hcon
    push_neg at hcon
    obtain ⟨ht, hp, hw⟩ := hcon
    apply hng
    refine ⟨ht, hp, ?_⟩
    cases hb : s.showSuitPicker
    · rfl
    · exact absurd hb hw
  · intro hpd
    exact handleSuitPick_none s suit hpd

theorem claim9_amended_rejections_witness :
    handleDraw c9State = c9State ∧ handleSuitPick c9State Suit.hearts = c9State := by
  have h := claim9_amended_rejections c9State Suit.hearts
  exact ⟨h.1 (by decide), h.2.1 (by decide)⟩

/-- C10: whenever it is the player's turn in the playing phase with no
pending wild and a non-empty deck, a draw call moves the draw-end card
into the player's hand; if that card is legal the turn does not pass, the
phase and picker are unchanged, so a further draw call is accepted again
— draws per turn are unbounded while each drawn card is legal. -/
theorem claim10_repeat_draw (s : GameState)
    (ht : s.turn = Turn.player) (hp : s.phase = GamePhase.playing)
    (hw : s.showSuitPicker = false) (hd : s.deck ≠ []) :
    ∃ drawn : CardData, s.deck.getLast? = some drawn ∧
      (handleDraw s).playerHand = s.playerHand ++ [drawn] ∧
      (handleDraw s).deck = s.deck.dropLast ∧
      (isValidMoveS s drawn = true →
        (handleDraw s).turn = Turn.player ∧
        (handleDraw s).phase = GamePhase.playing ∧
        (handleDraw s).showSuitPicker = false) := by
  cases hdk : s.deck.getLast? with
  | none => exact absurd (List.getLast?_eq_none_iff.mp hdk) hd
  | some drawn =>
      refine ⟨drawn, rfl, ?_, ?_, ?_⟩
      · by_cases hv : isValidMoveS s drawn = true
        · rw [handleDraw_valid s drawn ht hp hw hdk hv]
        · rw [handleDraw_invalid s drawn ht hp hw hdk (by simpa using hv)]
      · by_cases hv : isValidMoveS s drawn = true
        · rw [handleDraw_valid s drawn ht hp hw hdk hv]
        · rw [handleDraw_invalid s drawn ht hp hw hdk (by simpa using hv)]
      · intro hv
        rw [handleDraw_valid s drawn ht hp hw hdk hv]
        exact ⟨ht, hp, hw⟩

theorem claim10_repeat_draw_witness :
    (handleDraw (initGame createDeck)).turn = Turn.player ∧
      (handleDraw (initGame createDeck)).deck.length = 34 := by
  obtain ⟨drawn, hdk, hph, hdeck, himp⟩ :=
    claim10_repeat_draw (initGame createDeck) rfl rfl rfl (by decide)
  have hdq : drawn = ⟨(Rank.Q, Suit.spades), Suit.spades, Rank.Q⟩ :=
    Option.some.inj (hdk.symm.trans (by decide))
  constructor
  · exact (himp (by rw [hdq]; decide)).1
  · rw [hdeck]
    decide
